import Mathlib

/-!
Shallow embedding of the memjar/observer message-log core
(src/api/archive.ts, src/api/messages.ts, src/unnamed/part_001):
timestamp extraction, the merge-window coalescer, the write path,
the compactor, the paginator and bulk deletion.

Timestamps are modelled as integer epoch milliseconds.  JavaScript
Date-string parsing is modelled for the full ISO shape
"YYYY-MM-DDTHH:MM:SSZ" that the handlers' repaired strings take;
parsing failure on any other shape corresponds to an invalid Date.
-/

namespace Observer

/-- The stored timestamp field of a document: a Firestore Timestamp
(structured point in time), a string, a number (epoch milliseconds),
or absent.  Mirrors the duck-typed checks in extractDate
(src/api/archive.ts lines 35-49). -/
inductive TsField where
  | struct (ms : Int)
  | str (s : String)
  | num (ms : Int)
  | absent
deriving DecidableEq, Repr

/-- Document data fields used by the handlers (team-messages and
team-messages-archive records).  Optional fields model absent JSON
properties.  archivedAt is the relocation annotation added by the
compactor. -/
structure DocData where
  ts : TsField
  sender : Option String := none
  msg : Option String := none
  recipient : Option String := none
  kind : Option String := none
  archivedAt : Option Int := none
deriving DecidableEq, Repr

/-- A Firestore document snapshot: its id and (possibly missing) data. -/
structure Doc where
  id : String
  data : Option DocData
deriving DecidableEq, Repr

/-- First-occurrence replacement of the daemon separator pattern
T(dd)-(dd)-(dd) by T(dd):(dd):(dd), the regex replace at
src/api/archive.ts line 38. -/
def fixSepAux : List Char → List Char
  | 'T' :: a :: b :: '-' :: c :: d :: '-' :: e :: f :: rest =>
      if a.isDigit && b.isDigit && c.isDigit && d.isDigit && e.isDigit && f.isDigit then
        'T' :: a :: b :: ':' :: c :: d :: ':' :: e :: f :: rest
      else 'T' :: fixSepAux (a :: b :: '-' :: c :: d :: '-' :: e :: f :: rest)
  | c :: rest => c :: fixSepAux rest
  | [] => []

/-- Repair of the malformed-separator pattern on a stored string. -/
def fixSep (s : String) : String :=
  String.mk (fixSepAux s.data)

/-- Leap-year test (Gregorian). -/
def isLeap (y : Nat) : Bool :=
  y % 4 == 0 && (y % 100 != 0 || y % 400 == 0)

/-- Number of days in a month. -/
def daysInMonth (y m : Nat) : Nat :=
  if m == 2 then (if isLeap y then 29 else 28)
  else if m == 4 || m == 6 || m == 9 || m == 11 then 30
  else 31

/-- Days from the civil date y-m-d to 1970-01-01 (standard civil
calendar conversion). -/
def daysFromCivil (y m d : Nat) : Int :=
  let y' : Nat := if m ≤ 2 then y - 1 else y
  let era : Nat := y' / 400
  let yoe : Nat := y' % 400
  let mp : Nat := (m + 9) % 12
  let doy : Nat := (153 * mp + 2) / 5 + (d - 1)
  let doe : Nat := yoe * 365 + yoe / 4 - yoe / 100 + doy
  (era * 146097 + doe : Int) - 719468

/-- Numeric value of a digit character. -/
def digitVal (c : Char) : Nat := c.toNat - 48

/-- Parse a date-time string of the exact shape YYYY-MM-DDTHH:MM:SSZ
into epoch milliseconds, validating calendar ranges as JavaScript
Date does for ISO strings; any other shape is an invalid Date. -/
def parseISO (s : String) : Option Int :=
  match s.data with
  | [y1, y2, y3, y4, '-', m1, m2, '-', d1, d2, 'T',
     h1, h2, ':', n1, n2, ':', s1, s2, 'Z'] =>
    if y1.isDigit && y2.isDigit && y3.isDigit && y4.isDigit &&
       m1.isDigit && m2.isDigit && d1.isDigit && d2.isDigit &&
       h1.isDigit && h2.isDigit && n1.isDigit && n2.isDigit &&
       s1.isDigit && s2.isDigit then
      let y := ((digitVal y1 * 10 + digitVal y2) * 10 + digitVal y3) * 10 + digitVal y4
      let mo := digitVal m1 * 10 + digitVal m2
      let d := digitVal d1 * 10 + digitVal d2
      let h := digitVal h1 * 10 + digitVal h2
      let mi := digitVal n1 * 10 + digitVal n2
      let se := digitVal s1 * 10 + digitVal s2
      if 1 ≤ mo && mo ≤ 12 && 1 ≤ d && d ≤ daysInMonth y mo &&
         h ≤ 23 && mi ≤ 59 && se ≤ 59 then
        some ((daysFromCivil y mo d * 86400 + (h * 3600 + mi * 60 + se : Nat)) * 1000)
      else none
    else none
  | _ => none

/-- The capture of the identifier regex anchored at the start:
four digits, hyphen, two digits, hyphen, two digits, the letter T, a
nonempty run of digits and hyphens, then the letter Z
(src/api/archive.ts line 51). -/
def idDatePart (id : String) : Option String :=
  match id.data with
  | a :: b :: c :: d :: '-' :: e :: f :: '-' :: g :: h :: 'T' :: rest =>
    if a.isDigit && b.isDigit && c.isDigit && d.isDigit &&
       e.isDigit && f.isDigit && g.isDigit && h.isDigit then
      let run := rest.takeWhile (fun ch => ch.isDigit || ch == '-')
      match rest.drop run.length with
      | 'Z' :: _ =>
        if run.isEmpty then none
        else some (String.mk
          (a :: b :: c :: d :: '-' :: e :: f :: '-' :: g :: h :: 'T' :: (run ++ ['Z'])))
      | _ => none
    else none
  | _ => none

/-- Five minutes in milliseconds, the clock-skew guard threshold. -/
def skewGuardMs : Int := 5 * 60 * 1000

/-- Fallback: parse a date-time-shaped prefix of the document id,
with the separator repair, and no future clamp
(src/api/archive.ts lines 51-58). -/
def idFallback (id : String) : Int :=
  match idDatePart id with
  | some p =>
    match parseISO (fixSep p) with
    | some t => t
    | none => 0
  | none => 0

/-- The timestamp extractor: extractDate of src/api/archive.ts lines
31-59.  Returns epoch milliseconds; 0 (the epoch origin) is the
Unknown sentinel.  The string path clamps values more than five
minutes ahead of now; the structured and numeric paths do not. -/
def extractDate (now : Int) (doc : Doc) : Int :=
  match doc.data with
  | none => 0
  | some data =>
    match data.ts with
    | .struct ms => ms
    | .str s =>
      match parseISO (fixSep s) with
      | some t => if t > now + skewGuardMs then now else t
      | none => idFallback doc.id
    | .num ms => ms
    | .absent => idFallback doc.id

/-- A normalized message as mapped by the read path
(src/api/messages.ts lines 50-60): ts is the extracted time, none
when unknown. -/
structure RawMsg where
  id : String
  sender : String
  msg : String
  recipient : String
  kind : String
  ts : Option Int
deriving DecidableEq, Repr

/-- The non-mergeable kinds (system types) of the merge checks in
src/api/messages.ts lines 71-72 and 114-115. -/
def nonMergeableKinds : List String :=
  ["task_added", "task", "solving_mode", "bash_request"]

/-- The merge window in milliseconds (MERGE_WINDOW_SECONDS * 1000). -/
def mergeWindowMs : Int := 60 * 1000

/-- The read-time merge condition of src/api/messages.ts lines 67-73:
same sender, both timestamps known, strictly within the window, and
neither kind non-mergeable. -/
def mergeCond (prev m : RawMsg) : Bool :=
  prev.sender == m.sender &&
  (match prev.ts, m.ts with
   | some tp, some tm => decide (tm - tp < mergeWindowMs)
   | _, _ => false) &&
  !(nonMergeableKinds.contains m.kind) &&
  !(nonMergeableKinds.contains prev.kind)

/-- The in-place update of the open accumulator
(src/api/messages.ts lines 75-76): append the text after a blank
line and bump the timestamp to the incoming message's. -/
def mergeInto (prev m : RawMsg) : RawMsg :=
  { prev with msg := prev.msg ++ "\n\n" ++ m.msg, ts := m.ts }

/-- The merge loop of src/api/messages.ts lines 64-80, with the open
accumulator made explicit: each incoming message either extends the
accumulator or closes it and starts a new one. -/
def coalesceAux (acc : RawMsg) : List RawMsg → List RawMsg
  | [] => [acc]
  | m :: rest =>
    if mergeCond acc m then coalesceAux (mergeInto acc m) rest
    else acc :: coalesceAux m rest

/-- The read-time coalescer over a full sequence. -/
def coalesce : List RawMsg → List RawMsg
  | [] => []
  | m :: rest => coalesceAux m rest

/-- Chronological comparability of two messages: whenever both
timestamps are known, the first is not later than the second. -/
def tsLeB (a b : RawMsg) : Bool :=
  match a.ts, b.ts with
  | some x, some y => decide (x ≤ y)
  | _, _ => true

/-- A chronologically ordered sequence: every earlier message is
tsLeB-below every later one. -/
def Chronological (l : List RawMsg) : Prop :=
  l.Pairwise (fun a b => tsLeB a b = true)

/-- The merge condition as the specification words it: the sender
matches, both authoritative timestamps are known, the incoming
timestamp minus the accumulator timestamp is strictly less than the
window, and neither kind is in the non-mergeable set.  (The spec's
kind names task-created, mode-change, shell-request name the stored
strings task_added, solving_mode, bash_request.) -/
def specMergeCond (prev m : RawMsg) : Prop :=
  ∃ tp tm, prev.ts = some tp ∧ m.ts = some tm ∧
    prev.sender = m.sender ∧ tm - tp < mergeWindowMs ∧
    m.kind ∉ nonMergeableKinds ∧ prev.kind ∉ nonMergeableKinds

/-- Outcome of the write path: either an existing document was
updated in place (merged) or a new one was created. -/
inductive AppendOutcome where
  | merged (id : String) (newMsg : String) (newTs : Int)
  | created (doc : DocData)
deriving DecidableEq, Repr

/-- The write path of src/api/messages.ts lines 91-134.  lastDoc is
the single most recent stored message (orderBy ts desc, limit 1), or
none when the collection is empty.  Absent body fields default:
sender to "james", text to "", kind to "message", recipient to
"team".  The last document's time is read via ts?.toDate?.(), so
only a structured timestamp counts. -/
def appendPost (now : Int) (lastDoc : Option Doc)
    (sender? recipient? msg? kind? : Option String) : AppendOutcome :=
  let sender := sender?.getD "james"
  let msgText := msg?.getD ""
  let msgKind := kind?.getD "message"
  let fresh : DocData :=
    { ts := .struct now, sender := some sender, recipient := some (recipient?.getD "team"),
      msg := some msgText, kind := some msgKind }
  match lastDoc with
  | none => .created fresh
  | some ld =>
    let lastTs : Option Int :=
      match ld.data with
      | some dd => match dd.ts with | .struct ms => some ms | _ => none
      | none => none
    let sameAgent := (ld.data.bind (·.sender)) == some sender
    let withinWindow :=
      match lastTs with
      | some t => decide (now - t < mergeWindowMs)
      | none => false
    let mergeable :=
      !(nonMergeableKinds.contains msgKind) &&
      !(nonMergeableKinds.contains ((ld.data.bind (·.kind)).getD ""))
    if sameAgent && withinWindow && mergeable then
      .merged ld.id (((ld.data.bind (·.msg)).getD "") ++ "\n\n" ++ msgText) now
    else .created fresh

/-- The compaction threshold: keep at most this many live messages. -/
def keepLive : Nat := 100

/-- The per-run relocation cap. -/
def maxPerRun : Nat := 200

/-- Ascending stable sort by authoritative timestamp, the JS sort at
src/api/archive.ts lines 137-139. -/
def sortByTs (now : Int) (docs : List Doc) : List Doc :=
  List.insertionSort (fun a b => extractDate now a ≤ extractDate now b) docs

/-- The documents a compaction run selects for relocation: nothing
when the live count is within the threshold, otherwise the oldest
min(total - keepLive, maxPerRun) by authoritative timestamp
(src/api/archive.ts lines 128-143). -/
def selectToArchive (now : Int) (live : List Doc) : List Doc :=
  if live.length ≤ keepLive then []
  else (sortByTs now live).take (min (live.length - keepLive) maxPerRun)

/-- The relocated record: the same data annotated with the
relocation time (batch.set at src/api/archive.ts line 156). -/
def relocatedDoc (now : Int) (d : Doc) : Doc :=
  { id := d.id, data := d.data.map (fun dd => { dd with archivedAt := some now }) }

/-- Firestore document set by id: replace the document with that id
if present, else append it. -/
def storeSet (docs : List Doc) (d : Doc) : List Doc :=
  if docs.any (fun a => a.id == d.id) then
    docs.map (fun a => if a.id == d.id then d else a)
  else docs ++ [d]

/-- Net effect on both collections of committing the relocation of a
list of selected documents: each is written (with annotation) into
the archive and deleted from the live collection.  Instantiated with
a prefix of the selected set, this is the state after any number of
successful batch commits (batches of 250 at src/api/archive.ts
lines 149-162). -/
def applyMoves (now : Int) (moved : List Doc) (live archive : List Doc) :
    List Doc × List Doc :=
  (live.filter (fun d => !(moved.any (fun m => m.id == d.id))),
   moved.foldl (fun acc d => storeSet acc (relocatedDoc now d)) archive)

/-- A full compaction run with every batch commit successful:
returns the new live collection, the new archive collection, and the
relocated count (src/api/archive.ts lines 116-169). -/
def compact (now : Int) (live archive : List Doc) :
    List Doc × List Doc × Nat :=
  let sel := selectToArchive now live
  let (l, a) := applyMoves now sel live archive
  (l, a, sel.length)

/-- The archive page item as mapped by the paginator
(src/api/archive.ts lines 93-105); the ISO rendering of the
timestamp is modelled by the epoch value itself, none when the
extracted time is the Unknown sentinel. -/
structure ArchiveMsg where
  id : String
  sender : String
  msg : String
  recipient : String
  kind : String
  ts : Option Int
  archived : Bool
deriving DecidableEq, Repr

/-- Mapping of an archive document to the returned item shape. -/
def toArchiveMsg (now : Int) (doc : Doc) : ArchiveMsg :=
  let t := extractDate now doc
  { id := doc.id
    sender := ((doc.data.bind (·.sender)).getD "unknown")
    msg := ((doc.data.bind (·.msg)).getD "")
    recipient := ((doc.data.bind (·.recipient)).getD "team")
    kind := ((doc.data.bind (·.kind)).getD "message")
    ts := if t > 0 then some t else none
    archived := true }

/-- The paginator's result shape. -/
structure PageResult where
  messages : List ArchiveMsg
  page : Nat
  limit : Nat
  total : Nat
  hasMore : Bool
deriving DecidableEq, Repr

/-- The configured maximum page size. -/
def maxPageSize : Nat := 200

/-- Descending stable sort by authoritative timestamp, the JS sort
at src/api/archive.ts lines 85-87. -/
def sortByTsDesc (now : Int) (docs : List Doc) : List Doc :=
  List.insertionSort (fun a b => extractDate now b ≤ extractDate now a) docs

/-- The paginator (src/api/archive.ts lines 74-113): clamp the page
size to the maximum, sort the archive descending by authoritative
timestamp, slice the requested page, map to items and reverse into
chronological order. -/
def fetchArchivePage (now : Int) (archive : List Doc)
    (page limitReq : Nat) : PageResult :=
  let limit := min limitReq maxPageSize
  let allDocs := sortByTsDesc now archive
  let total := allDocs.length
  let offset := page * limit
  let pageDocs := (allDocs.drop offset).take limit
  { messages := (pageDocs.map (toArchiveMsg now)).reverse
    page := page
    limit := limit
    total := total
    hasMore := decide (offset + limit < total) }

/-- Bulk deletion by sender (src/unnamed/part_001 lines 416-427):
query the live collection for documents whose sender field equals
the given sender, then batch-delete each matched document by
reference.  Returns the new live collection and the deleted count. -/
def deleteBySender (live : List Doc) (sender : String) : List Doc × Nat :=
  let snap := live.filter (fun d => (d.data.bind (·.sender)) == some sender)
  (live.filter (fun d => !(snap.any (fun m => m.id == d.id))), snap.length)

/-! ### Timestamp extractor claims -/

/-- Claim C6: a string timestamp parsing more than five minutes
ahead of now is clamped to now; a structured timestamp is returned
unchanged, never clamped, even when in the future; the numeric path
is likewise never clamped. -/
theorem claim_C6 :
    (∀ (now : Int) (id : String) (dd : DocData) (s : String) (t : Int),
       dd.ts = .str s → parseISO (fixSep s) = some t → t > now + skewGuardMs →
       extractDate now ⟨id, some dd⟩ = now) ∧
    (∀ (now : Int) (id : String) (dd : DocData) (ms : Int),
       dd.ts = .struct ms → extractDate now ⟨id, some dd⟩ = ms) ∧
    (∀ (now : Int) (id : String) (dd : DocData) (ms : Int),
       dd.ts = .num ms → extractDate now ⟨id, some dd⟩ = ms) := by
  refine ⟨?_, ?_, ?_⟩
  · intro now id dd s t hts hp hfut
    simp only [extractDate, hts, hp]
    rw [if_pos hfut]
  · intro now id dd ms hts
    simp only [extractDate, hts]
  · intro now id dd ms hts
    simp only [extractDate, hts]

/-- Witness for C6: a stored string for 2026-02-09T01:10:00Z seen at
now = 0 is clamped to 0, while structured and numeric values far in
the future of now = 0 are returned unchanged. -/
theorem claim_C6_witness :
    extractDate 0 ⟨"d1", some { ts := .str "2026-02-09T01:10:00Z" }⟩ = 0 ∧
    extractDate 0 ⟨"d1", some { ts := .struct 1770599400000 }⟩ = 1770599400000 ∧
    extractDate 0 ⟨"d1", some { ts := .num 1770599400000 }⟩ = 1770599400000 :=
  ⟨claim_C6.1 0 "d1" _ "2026-02-09T01:10:00Z" 1770599400000 rfl (by decide) (by decide),
   claim_C6.2.1 0 "d1" _ 1770599400000 rfl,
   claim_C6.2.2 0 "d1" _ 1770599400000 rfl⟩

/-- Counterexample to claim C7 as stated: at now = 0 (the extractor's
clock well before the encoded date), the stored string
"2026-02-09T01-10-00Z" does not yield the repaired point in time
1770599400000 (2026-02-09T01:10:00Z): the clock-skew guard clamps it
to now = 0. -/
theorem claim_C7_counterexample :
    extractDate 0 ⟨"d1", some { ts := .str "2026-02-09T01-10-00Z" }⟩ = 0 ∧
    (0 : Int) ≠ 1770599400000 := by
  constructor
  · decide
  · decide

/-- Claim C7 (amended): for every string timestamp whose repaired
form parses, extract returns the repaired point in time unless it is
more than five minutes ahead of now, in which case it returns now;
in particular "2026-02-09T01-10-00Z" yields 2026-02-09T01:10:00Z
whenever now is at least that time minus five minutes. -/
theorem claim_C7 :
    (∀ (now : Int) (id : String) (dd : DocData) (s : String) (t : Int),
       dd.ts = .str s → parseISO (fixSep s) = some t →
       extractDate now ⟨id, some dd⟩ = if t > now + skewGuardMs then now else t) ∧
    (∀ now : Int, 1770599400000 ≤ now + skewGuardMs →
       extractDate now ⟨"d1", some { ts := .str "2026-02-09T01-10-00Z" }⟩ =
         1770599400000) := by
  constructor
  · intro now id dd s t hts hp
    simp only [extractDate, hts, hp]
  · intro now hnow
    have hp : parseISO (fixSep "2026-02-09T01-10-00Z") = some 1770599400000 := by decide
    simp only [extractDate, hp]
    rw [if_neg (by omega)]

/-- Witness for C7 (amended): with now equal to the repaired time,
the malformed string yields exactly the repaired point in time. -/
theorem claim_C7_witness :
    extractDate 1770599400000
      ⟨"d1", some { ts := .str "2026-02-09T01-10-00Z" }⟩ = 1770599400000 :=
  claim_C7.2 1770599400000 (by decide)

/-- Claim C10: on the identifier-fallback path (stored timestamp
absent, or a string that fails to parse even after repair), the
five-minute future clamp is not applied: the parsed identifier
prefix is returned as is, with no constraint relating it to now. -/
theorem claim_C10 :
    (∀ (now : Int) (id : String) (dd : DocData) (p : String) (t : Int),
       dd.ts = .absent → idDatePart id = some p → parseISO (fixSep p) = some t →
       extractDate now ⟨id, some dd⟩ = t) ∧
    (∀ (now : Int) (id : String) (dd : DocData) (s : String) (p : String) (t : Int),
       dd.ts = .str s → parseISO (fixSep s) = none →
       idDatePart id = some p → parseISO (fixSep p) = some t →
       extractDate now ⟨id, some dd⟩ = t) := by
  constructor
  · intro now id dd p t hts hid hp
    simp only [extractDate, hts, idFallback, hid, hp]
  · intro now id dd s p t hts hs hid hp
    simp only [extractDate, hts, hs, idFallback, hid, hp]

/-- Witness for C10: at now = 0, an identifier encoding the far
future year 2999 yields that future time unclamped on both fallback
paths, even though it is far more than five minutes ahead of now. -/
theorem claim_C10_witness :
    extractDate 0 ⟨"2999-01-01T00-00-00Z_x", some { ts := .absent }⟩ =
      32472144000000 ∧
    extractDate 0 ⟨"2999-01-01T00-00-00Z_x", some { ts := .str "garbage" }⟩ =
      32472144000000 ∧
    (32472144000000 : Int) > 0 + skewGuardMs :=
  ⟨claim_C10.1 0 "2999-01-01T00-00-00Z_x" _ "2999-01-01T00-00-00Z" 32472144000000
     rfl (by decide) (by decide),
   claim_C10.2 0 "2999-01-01T00-00-00Z_x" _ "garbage" "2999-01-01T00-00-00Z"
     32472144000000 rfl (by decide) (by decide) (by decide),
   by decide⟩

/-! ### Write-path claim -/

/-- Counterexample to claim C8 as stated: an append call with both
the sender field and the text field absent is not rejected with a
MalformedInput error; on an empty collection it creates a stored
message with sender defaulted to "james" and text defaulted to the
empty string. -/
theorem claim_C8_counterexample :
    appendPost 0 none none none none none =
      .created { ts := .struct 0, sender := some "james",
                 recipient := some "team", msg := some "", kind := some "message" } := by
  decide

/-- Claim C8 (amended): an append call with the sender field or the
text field absent is not rejected: it behaves exactly like an append
with sender "james" and empty text, and exactly one stored message
is created or updated in place. -/
theorem claim_C8 :
    ∀ (now : Int) (lastDoc : Option Doc) (recipient? kind? : Option String),
      appendPost now lastDoc none recipient? none kind? =
        appendPost now lastDoc (some "james") recipient? (some "") kind? ∧
      ((∃ dd, appendPost now lastDoc none recipient? none kind? =
          AppendOutcome.created dd) ∨
       (∃ i m t, appendPost now lastDoc none recipient? none kind? =
          AppendOutcome.merged i m t)) := by
  intro now lastDoc recipient? kind?
  refine ⟨rfl, ?_⟩
  cases hout : appendPost now lastDoc none recipient? none kind? with
  | merged i m t => exact Or.inr ⟨i, m, t, rfl⟩
  | created dd => exact Or.inl ⟨dd, rfl⟩

/-! ### Coalescer claims -/

/-- Claim C3: the coalescer merges an incoming message into the open
accumulator exactly when the sender matches, both authoritative
timestamps are known, the timestamp difference is strictly below the
window, and neither kind is non-mergeable; merging appends the text
after a blank line and bumps the accumulator timestamp.  Sender-A
messages "hello" at t and "world" at t+30s with ordinary kinds and
the 60s window coalesce into one message "hello\n\nworld" at t+30s,
while the same pair with a task-created (task_added) second kind
stays two messages. -/
theorem claim_C3 :
    (∀ prev m : RawMsg, mergeCond prev m = true ↔ specMergeCond prev m) ∧
    (∀ (acc m : RawMsg) (rest : List RawMsg), mergeCond acc m = true →
       coalesceAux acc (m :: rest) = coalesceAux (mergeInto acc m) rest) ∧
    (∀ prev m : RawMsg, (mergeInto prev m).msg = prev.msg ++ "\n\n" ++ m.msg ∧
       (mergeInto prev m).ts = m.ts) ∧
    coalesce
      [{ id := "m1", sender := "A", msg := "hello", recipient := "team",
         kind := "message", ts := some 1700000000000 },
       { id := "m2", sender := "A", msg := "world", recipient := "team",
         kind := "message", ts := some 1700000030000 }] =
      [{ id := "m1", sender := "A", msg := "hello\n\nworld", recipient := "team",
         kind := "message", ts := some 1700000030000 }] ∧
    coalesce
      [{ id := "m1", sender := "A", msg := "hello", recipient := "team",
         kind := "message", ts := some 1700000000000 },
       { id := "m2", sender := "A", msg := "world", recipient := "team",
         kind := "task_added", ts := some 1700000030000 }] =
      [{ id := "m1", sender := "A", msg := "hello", recipient := "team",
         kind := "message", ts := some 1700000000000 },
       { id := "m2", sender := "A", msg := "world", recipient := "team",
         kind := "task_added", ts := some 1700000030000 }] := by
  refine ⟨?_, ?_, ?_, by decide, by decide⟩
  · intro prev m
    cases hp : prev.ts with
    | none =>
      simp [mergeCond, specMergeCond, hp]
    | some tp =>
      cases hm : m.ts with
      | none => simp [mergeCond, specMergeCond, hp, hm]
      | some tm =>
        simp only [mergeCond, specMergeCond, hp, hm, Bool.and_eq_true,
          beq_iff_eq, decide_eq_true_eq, Bool.not_eq_true]
        constructor
        · rintro ⟨⟨⟨hs, hw⟩, hmk⟩, hpk⟩
          exact ⟨tp, tm, rfl, rfl, hs, hw,
            by simpa using hmk, by simpa using hpk⟩
        · rintro ⟨tp', tm', htp, htm, hs, hw, hmk, hpk⟩
          cases htp; cases htm
          exact ⟨⟨⟨hs, hw⟩, by simpa using hmk⟩, by simpa using hpk⟩
  · intro acc m rest h
    simp [coalesceAux, h]
  · intro prev m
    exact ⟨rfl, rfl⟩

/-- Witness for C3: the merge condition and the merge step hold at
the concrete "hello"/"world" pair. -/
theorem claim_C3_witness :
    specMergeCond
      { id := "m1", sender := "A", msg := "hello", recipient := "team",
        kind := "message", ts := some 1700000000000 }
      { id := "m2", sender := "A", msg := "world", recipient := "team",
        kind := "message", ts := some 1700000030000 } ∧
    coalesceAux
      { id := "m1", sender := "A", msg := "hello", recipient := "team",
        kind := "message", ts := some 1700000000000 }
      [{ id := "m2", sender := "A", msg := "world", recipient := "team",
         kind := "message", ts := some 1700000030000 }] =
    coalesceAux
      (mergeInto
        { id := "m1", sender := "A", msg := "hello", recipient := "team",
          kind := "message", ts := some 1700000000000 }
        { id := "m2", sender := "A", msg := "world", recipient := "team",
          kind := "message", ts := some 1700000030000 }) [] :=
  ⟨(claim_C3.1 _ _).mp (by decide), claim_C3.2.1 _ _ [] (by decide)⟩

/-! ### Deletion claim -/

/-- Claim C9: delete-by-sender removes exactly the live messages
whose sender equals the given sender and leaves every other message
untouched (still present, in order, unmodified), whatever the number
of matches.  The nonempty-sender hypothesis mirrors the handler's
truthiness guard on the sender field; document ids are unique within
a Firestore collection. -/
theorem claim_C9 :
    ∀ (live : List Doc) (s : String),
      s ≠ "" → (live.map (·.id)).Nodup →
      (∀ d ∈ live, (d.data.bind (·.sender)) = some s →
         d ∉ (deleteBySender live s).1) ∧
      (∀ d ∈ live, (d.data.bind (·.sender)) ≠ some s →
         d ∈ (deleteBySender live s).1) ∧
      (deleteBySender live s).1.Sublist live ∧
      (deleteBySender live s).2 =
        (live.filter (fun d => (d.data.bind (·.sender)) == some s)).length := by
  intro live s _hs hnd
  refine ⟨?_, ?_, List.filter_sublist _, rfl⟩
  · intro d hd hsender hmem
    have hd_snap : d ∈ live.filter (fun d => (d.data.bind (·.sender)) == some s) :=
      List.mem_filter.mpr ⟨hd, by simp [hsender]⟩
    have hcond := (List.mem_filter.mp hmem).2
    simp only [Bool.not_eq_true', List.any_eq_false] at hcond
    exact absurd (by simp : (d.id == d.id) = true) (hcond d hd_snap)
  · intro d hd hsender
    refine List.mem_filter.mpr ⟨hd, ?_⟩
    simp only [Bool.not_eq_true', List.any_eq_false]
    intro m hm
    have hm' := List.mem_filter.mp hm
    simp only [beq_iff_eq] at hm' ⊢
    intro hid
    have : m = d := List.inj_on_of_nodup_map hnd hm'.1 hd hid
    exact hsender (this ▸ hm'.2)

/-- Witness for C9: on a two-document collection, deleting sender
"x" removes the "x" document and keeps the "y" document. -/
theorem claim_C9_witness :
    (⟨"a", some { ts := .num 0, sender := some "x" }⟩ : Doc) ∉
      (deleteBySender
        [⟨"a", some { ts := .num 0, sender := some "x" }⟩,
         ⟨"b", some { ts := .num 1, sender := some "y" }⟩] "x").1 ∧
    (⟨"b", some { ts := .num 1, sender := some "y" }⟩ : Doc) ∈
      (deleteBySender
        [⟨"a", some { ts := .num 0, sender := some "x" }⟩,
         ⟨"b", some { ts := .num 1, sender := some "y" }⟩] "x").1 :=
  ⟨(claim_C9
      [⟨"a", some { ts := .num 0, sender := some "x" }⟩,
       ⟨"b", some { ts := .num 1, sender := some "y" }⟩] "x"
      (by decide) (by decide)).1 _ (by decide) (by decide),
   (claim_C9
      [⟨"a", some { ts := .num 0, sender := some "x" }⟩,
       ⟨"b", some { ts := .num 1, sender := some "y" }⟩] "x"
      (by decide) (by decide)).2.1 _ (by decide) (by decide)⟩

/-! ### Paginator claim -/

/-- The sort underlying the paginator preserves length. -/
theorem length_sortByTsDesc (now : Int) (docs : List Doc) :
    (sortByTsDesc now docs).length = docs.length :=
  (List.perm_insertionSort _ _).length_eq

/-- Claim C5: fetch-archive-page sorts descending by authoritative
timestamp, returns the requested slice reversed into chronological
order, reports the archive size as total and hasMore exactly when
offset + pageSize < total, clamps the page size to 200, returns an
empty page beyond the end with hasMore = false; on a 120-item
archive, page (0,50) is the newest 50 in chronological order with
hasMore, and page (2,50) is the remaining 20 without. -/
theorem claim_C5 :
    (∀ (now : Int) (archive : List Doc) (page limitReq : Nat),
       (fetchArchivePage now archive page limitReq).total = archive.length ∧
       (fetchArchivePage now archive page limitReq).limit = min limitReq maxPageSize ∧
       (fetchArchivePage now archive page limitReq).messages =
         ((((sortByTsDesc now archive).drop (page * min limitReq maxPageSize)).take
             (min limitReq maxPageSize)).map (toArchiveMsg now)).reverse ∧
       (fetchArchivePage now archive page limitReq).messages.length ≤
         min limitReq maxPageSize ∧
       ((fetchArchivePage now archive page limitReq).hasMore = true ↔
         page * min limitReq maxPageSize + min limitReq maxPageSize < archive.length) ∧
       (archive.length ≤ page * min limitReq maxPageSize →
         (fetchArchivePage now archive page limitReq).messages = [] ∧
         (fetchArchivePage now archive page limitReq).hasMore = false)) ∧
    (fetchArchivePage 0
      ((List.range 120).map
        (fun i => (⟨"a" ++ toString i, some { ts := .num (119 - (i : Int)) }⟩ : Doc)))
      0 50).messages.length = 50 ∧
    (fetchArchivePage 0
      ((List.range 120).map
        (fun i => (⟨"a" ++ toString i, some { ts := .num (119 - (i : Int)) }⟩ : Doc)))
      0 50).total = 120 ∧
    (fetchArchivePage 0
      ((List.range 120).map
        (fun i => (⟨"a" ++ toString i, some { ts := .num (119 - (i : Int)) }⟩ : Doc)))
      0 50).hasMore = true ∧
    (fetchArchivePage 0
      ((List.range 120).map
        (fun i => (⟨"a" ++ toString i, some { ts := .num (119 - (i : Int)) }⟩ : Doc)))
      0 50).messages.map (fun m => m.ts) =
      (List.range 50).map (fun n => some ((70 + n : Nat) : Int)) ∧
    (fetchArchivePage 0
      ((List.range 120).map
        (fun i => (⟨"a" ++ toString i, some { ts := .num (119 - (i : Int)) }⟩ : Doc)))
      2 50).messages.length = 20 ∧
    (fetchArchivePage 0
      ((List.range 120).map
        (fun i => (⟨"a" ++ toString i, some { ts := .num (119 - (i : Int)) }⟩ : Doc)))
      2 50).hasMore = false := by
  refine ⟨?_, by decide, by decide, by decide, by decide, by decide, by decide⟩
  intro now archive page limitReq
  have hlen := length_sortByTsDesc now archive
  refine ⟨by simp [fetchArchivePage, hlen], rfl, rfl, ?_, ?_, ?_⟩
  · simp only [fetchArchivePage, List.length_reverse, List.length_map, List.length_take]
    exact min_le_left _ _
  · simp only [fetchArchivePage, hlen, decide_eq_true_eq]
  · intro hbeyond
    have hdrop : (sortByTsDesc now archive).drop (page * min limitReq maxPageSize) = [] :=
      List.drop_eq_nil_of_le (by omega)
    constructor
    · simp [fetchArchivePage, hdrop]
    · simp only [fetchArchivePage, hlen]
      exact decide_eq_false (by omega)

/-- Witness for C5: a page index past the end of an empty archive
yields no items and hasMore = false. -/
theorem claim_C5_witness :
    (fetchArchivePage 0 [] 1 10).messages = [] ∧
    (fetchArchivePage 0 [] 1 10).hasMore = false :=
  (claim_C5.1 0 [] 1 10).2.2.2.2.2 (by decide)

/-! ### Compaction claims -/

/-- Relocation keeps the document id. -/
theorem relocatedDoc_id (now : Int) (d : Doc) : (relocatedDoc now d).id = d.id := rfl

/-- Ids after a store set: the old ids together with the written id. -/
theorem mem_map_id_storeSet (docs : List Doc) (d : Doc) (i : String) :
    i ∈ (storeSet docs d).map (·.id) ↔ i ∈ docs.map (·.id) ∨ i = d.id := by
  unfold storeSet
  by_cases h : docs.any (fun a => a.id == d.id)
  · rw [if_pos h, List.map_map]
    simp only [List.any_eq_true, beq_iff_eq] at h
    obtain ⟨w, hw, hwid⟩ := h
    simp only [List.mem_map, Function.comp]
    constructor
    · rintro ⟨a, ha, hai⟩
      by_cases hcase : a.id = d.id
      · rw [if_pos (by simpa using hcase)] at hai
        exact Or.inr hai.symm
      · rw [if_neg (by simpa using hcase)] at hai
        exact Or.inl ⟨a, ha, hai⟩
    · rintro (⟨a, ha, hai⟩ | rfl)
      · refine ⟨a, ha, ?_⟩
        by_cases hcase : a.id = d.id
        · rw [if_pos (by simpa using hcase), ← hcase]
          exact hai
        · rw [if_neg (by simpa using hcase)]
          exact hai
      · exact ⟨w, hw, by rw [if_pos (by simpa using hwid)]⟩
  · rw [if_neg h]
    simp

/-- Ids after committing the relocation writes of a list of moved
documents: the old archive ids together with the moved ids. -/
theorem mem_map_id_moveFold (now : Int) (moved archive : List Doc) (i : String) :
    i ∈ ((moved.foldl (fun acc d => storeSet acc (relocatedDoc now d)) archive).map (·.id)) ↔
    i ∈ archive.map (·.id) ∨ i ∈ moved.map (·.id) := by
  induction moved generalizing archive with
  | nil => simp
  | cons m ms ih =>
    simp only [List.foldl_cons, ih, mem_map_id_storeSet, relocatedDoc_id,
      List.map_cons, List.mem_cons]
    tauto

/-- Ids surviving the relocation deletes: the live ids that are not
among the moved ids. -/
theorem mem_map_id_filterMoves (moved live : List Doc) (i : String) :
    i ∈ ((live.filter (fun d => !(moved.any (fun m => m.id == d.id)))).map (·.id)) ↔
    (i ∈ live.map (·.id) ∧ i ∉ moved.map (·.id)) := by
  simp only [List.mem_map, List.mem_filter, Bool.not_eq_true', List.any_eq_false,
    beq_iff_eq]
  constructor
  · rintro ⟨d, ⟨hd, hno⟩, rfl⟩
    refine ⟨⟨d, hd, rfl⟩, ?_⟩
    rintro ⟨m, hm, hmi⟩
    exact hno m hm hmi
  · rintro ⟨⟨d, hd, rfl⟩, hno⟩
    refine ⟨d, ⟨hd, ?_⟩, rfl⟩
    intro m hm hmi
    exact hno ⟨m, hm, hmi⟩

/-- A document selected (even partially, via a prefix) for
relocation comes from the live collection. -/
theorem mem_selectToArchive_take (now : Int) (live : List Doc) (j : Nat) {d : Doc}
    (hd : d ∈ (selectToArchive now live).take j) : d ∈ live := by
  have hsel : d ∈ selectToArchive now live := List.take_subset j _ hd
  unfold selectToArchive at hsel
  split at hsel
  · simp at hsel
  · exact (List.perm_insertionSort _ live).subset (List.take_subset _ _ hsel)

/-- A full compaction run is the relocation of the whole selected
set, and reports the selected count. -/
theorem compact_eq (now : Int) (live archive : List Doc) :
    compact now live archive =
      ((applyMoves now (selectToArchive now live) live archive).1,
       (applyMoves now (selectToArchive now live) live archive).2,
       (selectToArchive now live).length) := rfl

/-- Claim C1: a compaction run whose batch commits all succeed
preserves message identity.  For the state after any number of
committed batches (a prefix of the selected set) and for the final
state, the union of live ids and archive ids is unchanged and no id
is held by both collections, given that the two collections are
disjoint beforehand. -/
theorem claim_C1 :
    ∀ (now : Int) (live archive : List Doc) (j : Nat),
      (∀ i, ¬(i ∈ live.map (·.id) ∧ i ∈ archive.map (·.id))) →
      (∀ i,
        (i ∈ (applyMoves now ((selectToArchive now live).take j) live archive).1.map (·.id) ∨
         i ∈ (applyMoves now ((selectToArchive now live).take j) live archive).2.map (·.id)) ↔
        (i ∈ live.map (·.id) ∨ i ∈ archive.map (·.id))) ∧
      (∀ i,
        ¬(i ∈ (applyMoves now ((selectToArchive now live).take j) live archive).1.map (·.id) ∧
          i ∈ (applyMoves now ((selectToArchive now live).take j) live archive).2.map (·.id))) ∧
      (∀ i,
        (i ∈ (compact now live archive).1.map (·.id) ∨
         i ∈ (compact now live archive).2.1.map (·.id)) ↔
        (i ∈ live.map (·.id) ∨ i ∈ archive.map (·.id))) ∧
      (∀ i,
        ¬(i ∈ (compact now live archive).1.map (·.id) ∧
          i ∈ (compact now live archive).2.1.map (·.id))) := by
  intro now live archive j hdisj
  have hl : ∀ (mv : List Doc) i, (∀ d ∈ mv, d ∈ live) →
      ((i ∈ (applyMoves now mv live archive).1.map (·.id) ∨
        i ∈ (applyMoves now mv live archive).2.map (·.id)) ↔
       (i ∈ live.map (·.id) ∨ i ∈ archive.map (·.id))) ∧
      ¬(i ∈ (applyMoves now mv live archive).1.map (·.id) ∧
        i ∈ (applyMoves now mv live archive).2.map (·.id)) := by
    intro mv i hsub
    have hmv_live : i ∈ mv.map (·.id) → i ∈ live.map (·.id) := by
      intro h
      simp only [List.mem_map] at h ⊢
      obtain ⟨d, hd, rfl⟩ := h
      exact ⟨d, hsub d hd, rfl⟩
    unfold applyMoves
    simp only [mem_map_id_filterMoves, mem_map_id_moveFold]
    constructor
    · constructor
      · rintro (⟨hlive, _⟩ | hAr | hMv)
        · exact Or.inl hlive
        · exact Or.inr hAr
        · exact Or.inl (hmv_live hMv)
      · rintro (hlive | hAr)
        · by_cases hm : i ∈ mv.map (·.id)
          · exact Or.inr (Or.inr hm)
          · exact Or.inl ⟨hlive, hm⟩
        · exact Or.inr (Or.inl hAr)
    · rintro ⟨⟨hlive, hnm⟩, hAr | hMv⟩
      · exact hdisj i ⟨hlive, hAr⟩
      · exact hnm hMv
  refine ⟨fun i => ((hl _ i ?_).1), fun i => ((hl _ i ?_).2),
          fun i => ?_, fun i => ?_⟩
  · exact fun d hd => mem_selectToArchive_take now live j hd
  · exact fun d hd => mem_selectToArchive_take now live j hd
  · rw [compact_eq]
    exact (hl (selectToArchive now live) i
      (fun d hd => mem_selectToArchive_take now live (selectToArchive now live).length
        (by rwa [List.take_length]))).1
  · rw [compact_eq]
    exact (hl (selectToArchive now live) i
      (fun d hd => mem_selectToArchive_take now live (selectToArchive now live).length
        (by rwa [List.take_length]))).2

/-- Witness for C1: on a one-document live collection and a disjoint
one-document archive, no id is in both collections after the run. -/
theorem claim_C1_witness :
    ¬("x" ∈ (compact 0 [⟨"x", some { ts := .num 5 }⟩]
               [⟨"y", some { ts := .num 1 }⟩]).1.map (·.id) ∧
      "x" ∈ (compact 0 [⟨"x", some { ts := .num 5 }⟩]
               [⟨"y", some { ts := .num 1 }⟩]).2.1.map (·.id)) :=
  (claim_C1 0 [⟨"x", some { ts := .num 5 }⟩] [⟨"y", some { ts := .num 1 }⟩] 1
    (by
      intro i hi
      simp only [List.map_cons, List.map_nil, List.mem_singleton] at hi
      obtain ⟨h1, h2⟩ := hi
      subst h1
      exact absurd h2 (by decide))).2.2.2 "x"

/-- The compactor's ascending sort is sorted with respect to the
authoritative timestamp. -/
theorem sorted_sortByTs (now : Int) (live : List Doc) :
    (sortByTs now live).Sorted (fun a b => extractDate now a ≤ extractDate now b) := by
  haveI : IsTotal Doc (fun a b => extractDate now a ≤ extractDate now b) :=
    ⟨fun a b => le_total _ _⟩
  haveI : IsTrans Doc (fun a b => extractDate now a ≤ extractDate now b) :=
    ⟨fun _ _ _ => le_trans⟩
  exact List.sorted_insertionSort _ live

/-- The compactor's ascending sort is a permutation of the live
collection. -/
theorem perm_sortByTs (now : Int) (live : List Doc) :
    (sortByTs now live).Perm live :=
  List.perm_insertionSort _ live

/-- Claim C2: compaction relocates nothing when the live count is at
most keepLive = 100, and otherwise relocates exactly
min(count - keepLive, maxPerRun = 200) messages, namely the oldest
prefix of the live set sorted ascending by authoritative timestamp
(every relocated message is no newer than every message left live);
when the backlog fits the per-run cap exactly keepLive messages
remain live. -/
theorem claim_C2 :
    ∀ (now : Int) (live archive : List Doc),
      (live.map (·.id)).Nodup →
      (live.length ≤ keepLive →
        (compact now live archive).2.2 = 0 ∧
        (compact now live archive).1 = live ∧
        (compact now live archive).2.1 = archive) ∧
      (keepLive < live.length →
        (compact now live archive).2.2 = min (live.length - keepLive) maxPerRun ∧
        selectToArchive now live =
          (sortByTs now live).take (min (live.length - keepLive) maxPerRun)) ∧
      (∀ d ∈ selectToArchive now live, ∀ e ∈ (compact now live archive).1,
        extractDate now d ≤ extractDate now e) ∧
      (keepLive < live.length → live.length - keepLive ≤ maxPerRun →
        (compact now live archive).1.length = keepLive) := by
  intro now live archive hnd
  have hsortlen : (sortByTs now live).length = live.length :=
    (perm_sortByTs now live).length_eq
  refine ⟨?_, ?_, ?_, ?_⟩
  · intro hle
    have hsel : selectToArchive now live = [] := by
      unfold selectToArchive
      rw [if_pos hle]
    rw [compact_eq]
    simp [applyMoves, hsel]
  · intro hgt
    have hsel : selectToArchive now live =
        (sortByTs now live).take (min (live.length - keepLive) maxPerRun) := by
      unfold selectToArchive
      rw [if_neg (not_le.mpr hgt)]
    refine ⟨?_, hsel⟩
    rw [compact_eq]
    simp only [hsel, List.length_take, hsortlen]
    omega
  · intro d hd e he
    by_cases hle : live.length ≤ keepLive
    · have hsel : selectToArchive now live = [] := by
        unfold selectToArchive
        rw [if_pos hle]
      rw [hsel] at hd
      simp at hd
    · have hgt : keepLive < live.length := not_le.mp hle
      set n := min (live.length - keepLive) maxPerRun with hn
      have hsel : selectToArchive now live = (sortByTs now live).take n := by
        unfold selectToArchive
        rw [if_neg (not_le.mpr hgt)]
      rw [compact_eq] at he
      have he' := List.mem_filter.mp he
      have he_live : e ∈ live := he'.1
      have he_not_sel : e ∉ selectToArchive now live := by
        intro hmem
        have hany : (selectToArchive now live).any (fun m => m.id == e.id) = true :=
          List.any_eq_true.mpr ⟨e, hmem, by simp⟩
        rw [hany] at he'
        simp at he'
      have he_sorted : e ∈ sortByTs now live := (perm_sortByTs now live).mem_iff.mpr he_live
      have hsplit := (List.take_append_drop n (sortByTs now live)).symm
      have hpair : ((sortByTs now live).take n ++ (sortByTs now live).drop n).Pairwise
          (fun a b => extractDate now a ≤ extractDate now b) := by
        rw [← hsplit]
        exact sorted_sortByTs now live
      have hcross := (List.pairwise_append.mp hpair).2.2
      have he_drop : e ∈ (sortByTs now live).drop n := by
        rcases List.mem_append.mp (hsplit ▸ he_sorted) with htake | hdrop
        · exact absurd (hsel ▸ htake) he_not_sel
        · exact hdrop
      exact hcross d (hsel ▸ hd) e he_drop
  · intro hgt hcap
    have hsel : selectToArchive now live =
        (sortByTs now live).take (live.length - keepLive) := by
      unfold selectToArchive
      rw [if_neg (not_le.mpr hgt)]
      congr 1
      omega
    have hnd_sorted : ((sortByTs now live).map (·.id)).Nodup :=
      (((perm_sortByTs now live).map (·.id)).nodup_iff).mpr hnd
    set n := live.length - keepLive with hn
    set p : Doc → Bool := fun d => (selectToArchive now live).any (fun m => m.id == d.id)
      with hp
    have hfilter_perm : (live.filter p).Perm ((sortByTs now live).filter p) :=
      ((perm_sortByTs now live).filter p).symm
    have htake_all : ((sortByTs now live).take n).filter p = (sortByTs now live).take n := by
      rw [List.filter_eq_self]
      intro d hd
      exact List.any_eq_true.mpr ⟨d, hsel ▸ hd, by simp⟩
    have hdrop_none : ((sortByTs now live).drop n).filter p = [] := by
      rw [List.filter_eq_nil_iff]
      intro d hd hpd
      obtain ⟨m, hm_sel, hmid⟩ := List.any_eq_true.mp hpd
      have hmid' : m.id = d.id := by simpa using hmid
      have hm_take : m ∈ (sortByTs now live).take n := hsel ▸ hm_sel
      have hdisj : List.Disjoint (((sortByTs now live).take n).map (·.id))
          (((sortByTs now live).drop n).map (·.id)) := by
        apply List.disjoint_of_nodup_append
        rw [← List.map_append, List.take_append_drop]
        exact hnd_sorted
      exact hdisj (List.mem_map_of_mem _ hm_take)
        (hmid' ▸ List.mem_map_of_mem (·.id) hd)
    have hcount : (live.filter p).length = n := by
      rw [hfilter_perm.length_eq]
      conv_lhs => rw [← List.take_append_drop n (sortByTs now live)]
      rw [List.filter_append, htake_all, hdrop_none, List.append_nil,
        List.length_take, (perm_sortByTs now live).length_eq]
      omega
    have hsplit_len := live.length_eq_length_filter_add p
    rw [compact_eq]
    show (live.filter (fun d => !(p d))).length = keepLive
    omega

/-- Witness for C2: a live collection of two uniquely-identified
documents is within the threshold, so compaction relocates zero and
changes neither collection. -/
theorem claim_C2_witness :
    (compact 0 [⟨"a", some { ts := .num 0 }⟩, ⟨"b", some { ts := .num 1 }⟩] []).2.2 = 0 ∧
    (compact 0 [⟨"a", some { ts := .num 0 }⟩, ⟨"b", some { ts := .num 1 }⟩] []).1 =
      [⟨"a", some { ts := .num 0 }⟩, ⟨"b", some { ts := .num 1 }⟩] ∧
    (compact 0 [⟨"a", some { ts := .num 0 }⟩, ⟨"b", some { ts := .num 1 }⟩] []).2.1 = [] :=
  (claim_C2 0 [⟨"a", some { ts := .num 0 }⟩, ⟨"b", some { ts := .num 1 }⟩] []
    (by decide)).1 (by decide)

/-! ### Coalescer idempotence (claim C4) -/

/-- A successful merge requires both timestamps to be known. -/
theorem mergeCond_ts_isSome {prev m : RawMsg} (h : mergeCond prev m = true) :
    prev.ts.isSome = true ∧ m.ts.isSome = true := by
  unfold mergeCond at h
  rcases hp : prev.ts with _ | tp <;> rcases hm : m.ts with _ | tm <;>
    rw [hp, hm] at h <;> simp_all

/-- The head of a coalescing pass keeps the opening accumulator's
sender and kind, and its timestamp is either the accumulator's or
that of some merged-in later message (known on both sides). -/
theorem coalesceAux_head :
    ∀ (l : List RawMsg) (acc : RawMsg),
      ∃ h t, coalesceAux acc l = h :: t ∧ h.sender = acc.sender ∧ h.kind = acc.kind ∧
        (h.ts = acc.ts ∨
          (acc.ts.isSome = true ∧ ∃ x ∈ l, x.ts.isSome = true ∧ h.ts = x.ts)) := by
  intro l
  induction l with
  | nil => exact fun acc => ⟨acc, [], rfl, rfl, rfl, Or.inl rfl⟩
  | cons m rest ih =>
    intro acc
    by_cases hmc : mergeCond acc m = true
    · obtain ⟨h, t, heq, hs, hk, hts⟩ := ih (mergeInto acc m)
      refine ⟨h, t, ?_, hs, hk, ?_⟩
      · rw [coalesceAux, if_pos hmc]
        exact heq
      · rcases hts with hts | ⟨_, x, hx, hxs, hxe⟩
        · exact Or.inr ⟨(mergeCond_ts_isSome hmc).1, m, List.mem_cons_self m rest,
            (mergeCond_ts_isSome hmc).2, hts⟩
        · exact Or.inr ⟨(mergeCond_ts_isSome hmc).1, x, List.mem_cons_of_mem m hx,
            hxs, hxe⟩
    · refine ⟨acc, coalesceAux m rest, ?_, rfl, rfl, Or.inl rfl⟩
      rw [coalesceAux, if_neg hmc]

/-- If a message fails to merge into an accumulator, then so does
any message with the same sender and kind and a timestamp no
earlier (when both are known). -/
theorem mergeCond_propagate {acc m h : RawMsg}
    (hs : h.sender = m.sender) (hk : h.kind = m.kind)
    (hts : h.ts = m.ts ∨ (∃ tm th, m.ts = some tm ∧ h.ts = some th ∧ tm ≤ th))
    (hmc : mergeCond acc h = true) : mergeCond acc m = true := by
  unfold mergeCond at hmc ⊢
  simp only [Bool.and_eq_true, beq_iff_eq] at hmc ⊢
  obtain ⟨⟨⟨hsnd, hwin⟩, hkm⟩, hka⟩ := hmc
  refine ⟨⟨⟨hsnd.trans hs, ?_⟩, hk ▸ hkm⟩, hka⟩
  rcases hts with hts | ⟨tm, th, hm, hh, hle⟩
  · rw [← hts]
    exact hwin
  · rw [hh] at hwin
    rcases hacc : acc.ts with _ | tp
    · rw [hacc] at hwin
      simp at hwin
    · rw [hacc] at hwin
      rw [hm]
      simp only [decide_eq_true_eq] at hwin ⊢
      omega

/-- On a chronologically ordered input, adjacent outputs of a
coalescing pass never satisfy the merge condition. -/
theorem coalesceAux_chain :
    ∀ (l : List RawMsg) (acc : RawMsg),
      l.Pairwise (fun a b => tsLeB a b = true) →
      (coalesceAux acc l).Chain' (fun a b => mergeCond a b = false) := by
  intro l
  induction l with
  | nil =>
    intro acc _
    exact List.chain'_singleton acc
  | cons m rest ih =>
    intro acc hl
    obtain ⟨hmrest, hrest⟩ := List.pairwise_cons.mp hl
    by_cases hmc : mergeCond acc m = true
    · rw [coalesceAux, if_pos hmc]
      exact ih (mergeInto acc m) hrest
    · rw [coalesceAux, if_neg hmc]
      obtain ⟨h, t, heq, hs, hk, hts⟩ := coalesceAux_head rest m
      rw [heq]
      refine List.chain'_cons'.mpr ⟨?_, heq ▸ ih m hrest⟩
      intro y hy
      simp only [List.head?_cons, Option.mem_def, Option.some.injEq] at hy
      subst hy
      by_contra hcon
      have hcon' : mergeCond acc h = true := by
        revert hcon
        cases mergeCond acc h <;> simp
      refine hmc (mergeCond_propagate hs hk ?_ hcon')
      rcases hts with hts | ⟨hms, x, hx, hxs, hxe⟩
      · exact Or.inl hts
      · rcases hm_eq : m.ts with _ | tm
        · rw [hm_eq] at hms
          simp at hms
        · rcases hx_eq : x.ts with _ | tx
          · rw [hx_eq] at hxs
            simp at hxs
          · refine Or.inr ⟨tm, tx, rfl, by rw [hxe, hx_eq], ?_⟩
            have := hmrest x hx
            unfold tsLeB at this
            rw [hm_eq, hx_eq] at this
            simpa using this

/-- A coalescing pass over a sequence whose adjacent entries never
satisfy the merge condition is the identity. -/
theorem coalesceAux_of_chain :
    ∀ (l : List RawMsg) (acc : RawMsg),
      (acc :: l).Chain' (fun a b => mergeCond a b = false) →
      coalesceAux acc l = acc :: l := by
  intro l
  induction l with
  | nil => exact fun acc _ => rfl
  | cons m rest ih =>
    intro acc hch
    obtain ⟨hab, hrest⟩ := List.chain'_cons.mp hch
    rw [coalesceAux, if_neg (by simp [hab]), ih m hrest]

/-- Adjacent entries of a coalesced chronologically ordered sequence
never satisfy the merge condition. -/
theorem coalesce_chain (l : List RawMsg) (hl : Chronological l) :
    (coalesce l).Chain' (fun a b => mergeCond a b = false) := by
  cases l with
  | nil => simp [coalesce]
  | cons a t =>
    exact coalesceAux_chain t a (List.Pairwise.of_cons hl)

/-- Claim C4: the coalescer is idempotent on every chronologically
ordered input sequence: re-running the merge pass on an already
coalesced sequence changes nothing. -/
theorem claim_C4 :
    ∀ (l : List RawMsg), Chronological l → coalesce (coalesce l) = coalesce l := by
  intro l hl
  have hchain := coalesce_chain l hl
  cases hc : coalesce l with
  | nil => rfl
  | cons a t =>
    rw [hc] at hchain
    exact coalesceAux_of_chain t a hchain

/-- Witness for C4: a concrete chronologically ordered three-message
burst coalesces to the same sequence under a second pass. -/
theorem claim_C4_witness :
    coalesce (coalesce
      [{ id := "m1", sender := "A", msg := "hello", recipient := "team",
         kind := "message", ts := some 1700000000000 },
       { id := "m2", sender := "A", msg := "world", recipient := "team",
         kind := "message", ts := some 1700000030000 },
       { id := "m3", sender := "B", msg := "hey", recipient := "team",
         kind := "message", ts := some 1700000100000 }]) =
    coalesce
      [{ id := "m1", sender := "A", msg := "hello", recipient := "team",
         kind := "message", ts := some 1700000000000 },
       { id := "m2", sender := "A", msg := "world", recipient := "team",
         kind := "message", ts := some 1700000030000 },
       { id := "m3", sender := "B", msg := "hey", recipient := "team",
         kind := "message", ts := some 1700000100000 }] :=
  claim_C4 _ (by
    unfold Chronological
    refine List.Pairwise.cons ?_ (List.Pairwise.cons ?_ (List.pairwise_singleton _ _))
    · intro b hb
      fin_cases hb <;> decide
    · intro b hb
      fin_cases hb
      decide)

end Observer
